import Mathlib

/-!
Shallow embedding of the `simple_triple_buffer` crate (src/lib.rs).

The crate is a single-writer / single-reader triple buffer:
* buffers are `Arc<T>` handles (here: natural-number ids into a heap `vals`),
* the exchange slot is a `Mutex<Option<Arc<T>>>` (here: `Option Nat`),
* the unused-buffer pool is an mpsc channel, FIFO (here: `List Nat`,
  front = next `try_recv` result, `send` appends at the back).

We model the sequential executions that the claims quantify over: an
interleaved sequence of `write_new` and `read_newest` calls on one
Writer/Reader pair.  The state carries, besides the fields that exist in
the Rust structs, ghost history fields used only to state properties:
`mkCount` (number of invocations of the user's `make_buf` callback),
`pubs` (the initial value followed by each value published by a write),
`ver` (for each buffer id, the index in `pubs` of the snapshot it last
carried when published), `rIdx` (index in `pubs` of the reader's current
snapshot) and `obs` (the `(index, value)` pairs returned by each
`read_newest` call).  The ghost fields never influence the real ones.
-/

namespace TripleBuffer

/-- Pointwise update of the buffer heap (one `Arc` cell being overwritten). -/
def updf {T : Type} (f : Nat → T) (i : Nat) (v : T) : Nat → T :=
  fun j => if j = i then v else f j

/-- Model of `ReadUpdate::replace`: swap the new handle in, returning
`(old contents, new slot contents)`. -/
def ReadUpdate.replace (slot : Option Nat) (b : Nat) : Option Nat × Option Nat :=
  (slot, some b)

/-- Model of `ReadUpdate::get`: `self.shared.lock().unwrap().take()` —
returns `(taken contents, new slot contents)`; the slot is emptied. -/
def ReadUpdate.get (slot : Option Nat) : Option Nat × Option Nat :=
  (slot, none)

/-- The joint state of one `Writer`/`Reader` pair.  Fields up to `queue`
mirror the Rust structs; the remaining fields are ghost history. -/
structure TBState (T : Type) where
  /-- value stored in each buffer id (`Arc` contents) -/
  vals : Nat → T
  /-- next fresh buffer id -/
  nextId : Nat
  /-- `Writer.prev_buf` -/
  wprev : Nat
  /-- `Reader.prev_buf` -/
  rprev : Nat
  /-- contents of `ReadUpdate.shared` -/
  slot : Option Nat
  /-- the `unused_bufs` channel, front first -/
  queue : List Nat
  /-- ghost: number of `make_buf` invocations -/
  mkCount : Nat
  /-- ghost: initial value followed by every published value, in order -/
  pubs : List T
  /-- ghost: publish index of each buffer id -/
  ver : Nat → Nat
  /-- ghost: publish index of the reader's current snapshot -/
  rIdx : Nat
  /-- ghost: the `(publish index, value)` observed by each read so far -/
  obs : List (Nat × T)

variable {T : Type}

/-- Model of `new_with(init, make_buf)` (via `Writer::new`): buffer id 0
holds `init`, both `prev_buf` fields are clones of it, the slot starts
empty and the channel is empty. -/
def initState (init : T) : TBState T :=
  { vals := fun _ => init
    nextId := 1
    wprev := 0
    rprev := 0
    slot := none
    queue := []
    mkCount := 0
    pubs := [init]
    ver := fun _ => 0
    rIdx := 0
    obs := [] }

/-- Model of `Writer::get_unused_buffer`: pop the channel if possible,
otherwise invoke `make_buf` on the previous state and allocate a fresh
buffer.  Returns the chosen buffer id and the updated state. -/
def get_unused_buffer (mk : T → T) (s : TBState T) : Nat × TBState T :=
  match s.queue with
  | b :: rest => (b, { s with queue := rest })
  | [] =>
    (s.nextId,
      { s with
        vals := updf s.vals s.nextId (mk (s.vals s.wprev))
        nextId := s.nextId + 1
        mkCount := s.mkCount + 1 })

/-- Second half of `Writer::write_new`, given the scratch buffer id `b`
already acquired: run `write_op(&prev_buf, mut_ref)` (the new value is
`f old scratch`), set `prev_buf`, publish through `ReadUpdate.replace`,
and send any reclaimed handle to the channel. -/
def writeFinish (f : T → T → T) (b : Nat) (s : TBState T) : TBState T :=
  let newVal := f (s.vals s.wprev) (s.vals b)
  let r := ReadUpdate.replace s.slot b
  { s with
    vals := updf s.vals b newVal
    wprev := b
    slot := r.2
    queue := s.queue ++ r.1.toList
    pubs := s.pubs ++ [newVal]
    ver := updf s.ver b s.pubs.length }

/-- Model of `Writer::write_new` with construction callback `mk` and
write callback `f` (new value = `f old scratch`). -/
def write_new (mk : T → T) (f : T → T → T) (s : TBState T) : TBState T :=
  let p := get_unused_buffer mk s
  writeFinish f p.1 p.2

/-- Model of `Reader::read_newest`: take the slot via `ReadUpdate.get`;
if a newer handle was present, adopt it and send the old `prev_buf` to
the channel.  Returns the observed value and the new state. -/
def read_newest (s : TBState T) : T × TBState T :=
  match ReadUpdate.get s.slot with
  | (some b, emptied) =>
    let s' :=
      { s with
        rprev := b
        slot := emptied
        queue := s.queue ++ [s.rprev]
        rIdx := s.ver b
        obs := s.obs ++ [(s.ver b, s.vals b)] }
    (s'.vals s'.rprev, s')
  | (none, _) =>
    let s' := { s with obs := s.obs ++ [(s.rIdx, s.vals s.rprev)] }
    (s'.vals s'.rprev, s')

/-- State after a `read_newest` call. -/
def readStep (s : TBState T) : TBState T := (read_newest s).2

/-- Value returned by a `read_newest` call. -/
def readValue (s : TBState T) : T := (read_newest s).1

/-- An operation of the sequential interface. -/
inductive Op (T : Type) where
  | write (f : T → T → T)
  | read

/-- Run one operation. -/
def applyOp (mk : T → T) : Op T → TBState T → TBState T
  | .write f, s => write_new mk f s
  | .read, s => readStep s

/-- Run a sequence of operations. -/
def applyOps (mk : T → T) (ops : List (Op T)) (s : TBState T) : TBState T :=
  ops.foldl (fun s o => applyOp mk o s) s

/-- Run a sequence of writes. -/
def runWrites (mk : T → T) (fs : List (T → T → T)) (s : TBState T) : TBState T :=
  fs.foldl (fun s f => write_new mk f s) s

/-- Run `n` consecutive reads, discarding the returned values. -/
def applyReads : Nat → TBState T → TBState T
  | 0, s => s
  | n + 1, s => applyReads n (readStep s)

/-- Lift an `old ↦ new` update to a `write_op` (the scratch argument of
the Rust callback is fully overwritten and hence ignored). -/
def liftUpd (u : T → T) : T → T → T := fun old _ => u old

/-- Strong reference count of buffer id `b`: one per holder among
`Writer.prev_buf`, `Reader.prev_buf`, the slot, and the channel entries.
No `Weak` handles exist anywhere in the crate. -/
def refcount (s : TBState T) (b : Nat) : Nat :=
  (if s.wprev = b then 1 else 0) + (if s.rprev = b then 1 else 0) +
    (match s.slot with
     | some c => if c = b then 1 else 0
     | none => 0) +
    s.queue.count b

/-- Contribution of the slot to the number of live handles. -/
def slotCount : Option Nat → Nat
  | some _ => 1
  | none => 0

/-- Model of `Reader::read_newest` when the `Writer` may already have been
dropped: the reclamation `send` (line 155) is `unwrap`ped, and it fails
exactly when the receiving end — owned by the `Writer` — is gone.  `none`
models the resulting panic.  The `None` branch performs no send. -/
def read_newest_checked (writerAlive : Bool) (s : TBState T) :
    Option (T × TBState T) :=
  match ReadUpdate.get s.slot with
  | (some _, _) =>
    if writerAlive then some (read_newest s) else none
  | (none, _) => some (read_newest s)

@[simp] theorem updf_same (f : Nat → T) (i : Nat) (v : T) : updf f i v i = v := by
  simp [updf]

theorem updf_ne (f : Nat → T) {i j : Nat} (v : T) (h : j ≠ i) : updf f i v j = f j := by
  simp [updf, h]

/-- The inductive invariant of the buffer pair, holding in every state
reachable by a sequence of `write_new` / `read_newest` calls. -/
structure Inv (s : TBState T) : Prop where
  hw : s.wprev < s.nextId
  hr : s.rprev < s.nextId
  hq : ∀ b ∈ s.queue, b < s.nextId
  hnodup : s.queue.Nodup
  hqw : ∀ b ∈ s.queue, b ≠ s.wprev
  hqr : ∀ b ∈ s.queue, b ≠ s.rprev
  hslot : ∀ b, s.slot = some b → b = s.wprev
  hsrw : s.slot.isSome = true → s.rprev ≠ s.wprev
  hcount : s.queue.length + slotCount s.slot = min s.mkCount 2
  hmk : s.mkCount ≤ 2
  hlen : s.rIdx < s.pubs.length
  hrv : s.pubs[s.rIdx]? = some (s.vals s.rprev)
  hsv : ∀ b, s.slot = some b →
    s.ver b + 1 = s.pubs.length ∧ s.pubs[s.ver b]? = some (s.vals b) ∧ s.rIdx ≤ s.ver b
  hobs : ∀ p ∈ s.obs, s.pubs[p.1]? = some p.2
  hobsr : ∀ p ∈ s.obs, p.1 ≤ s.rIdx
  hchain : List.Chain' (fun p q => p.1 ≤ q.1) s.obs

theorem inv_init (v : T) : Inv (initState v) := by
  constructor <;> simp [initState, slotCount]

end TripleBuffer

namespace TripleBuffer

variable {T : Type}

theorem updf_updf_same (f : Nat → T) (i : Nat) (a b : T) :
    updf (updf f i a) i b = updf f i b := by
  funext j
  by_cases hj : j = i <;> simp [updf, hj]

theorem write_new_eq_cons {s : TBState T} {b : Nat} {rest : List Nat}
    (hQ : s.queue = b :: rest) (mk : T → T) (f : T → T → T) :
    write_new mk f s =
      { s with
        vals := updf s.vals b (f (s.vals s.wprev) (s.vals b))
        wprev := b
        slot := some b
        queue := rest ++ s.slot.toList
        pubs := s.pubs ++ [f (s.vals s.wprev) (s.vals b)]
        ver := updf s.ver b s.pubs.length } := by
  simp [write_new, get_unused_buffer, hQ, writeFinish, ReadUpdate.replace]

theorem write_new_eq_nil {s : TBState T}
    (hQ : s.queue = []) (hlt : s.wprev < s.nextId) (mk : T → T) (f : T → T → T) :
    write_new mk f s =
      { s with
        vals := updf s.vals s.nextId (f (s.vals s.wprev) (mk (s.vals s.wprev)))
        nextId := s.nextId + 1
        mkCount := s.mkCount + 1
        wprev := s.nextId
        slot := some s.nextId
        queue := s.slot.toList
        pubs := s.pubs ++ [f (s.vals s.wprev) (mk (s.vals s.wprev))]
        ver := updf s.ver s.nextId s.pubs.length } := by
  have hne : s.wprev ≠ s.nextId := Nat.ne_of_lt hlt
  simp [write_new, get_unused_buffer, hQ, writeFinish, ReadUpdate.replace,
    updf_updf_same, updf_ne _ _ hne]

end TripleBuffer

namespace TripleBuffer

theorem inv_write {T : Type} (mk : T → T) (f : T → T → T) {s : TBState T}
    (h : Inv s) : Inv (write_new mk f s) := by
  obtain ⟨hw, hr, hq, hnodup, hqw, hqr, hslot, hsrw, hcount, hmk, hlen, hrv, hsv,
    hobs, hobsr, hchain⟩ := h
  cases hQ : s.queue with
  | cons b rest =>
    have hbmem : b ∈ s.queue := by rw [hQ]; exact List.mem_cons_self _ _
    have hblt : b < s.nextId := hq b hbmem
    have hbw : b ≠ s.wprev := hqw b hbmem
    have hbr : b ≠ s.rprev := hqr b hbmem
    have hrestq : ∀ c ∈ rest, c ∈ s.queue := by
      intro c hc; rw [hQ]; exact List.mem_cons_of_mem _ hc
    have hnd : (b :: rest).Nodup := hQ ▸ hnodup
    have hbrest : b ∉ rest := (List.nodup_cons.mp hnd).1
    have hndrest : rest.Nodup := (List.nodup_cons.mp hnd).2
    rw [write_new_eq_cons hQ mk f]
    constructor <;> dsimp only
    · exact hblt
    · exact hr
    · intro c hc
      rcases List.mem_append.mp hc with hc | hc
      · exact hq c (hrestq c hc)
      · cases hS : s.slot with
        | none => simp [hS] at hc
        | some o =>
          have hco : c = o := by simpa [hS] using hc
          have how : o = s.wprev := hslot o hS
          omega
    · cases hS : s.slot with
      | none => simpa using hndrest
      | some o =>
        have how : o = s.wprev := hslot o hS
        simp only [Option.toList_some]
        refine List.Nodup.append hndrest (List.nodup_singleton o) ?_
        intro c hc hc2
        simp only [List.mem_singleton] at hc2
        exact hqw c (hrestq c hc) (hc2 ▸ how)
    · intro c hc
      rcases List.mem_append.mp hc with hc | hc
      · intro hcb; exact hbrest (hcb ▸ hc)
      · cases hS : s.slot with
        | none => simp [hS] at hc
        | some o =>
          have hco : c = o := by simpa [hS] using hc
          have how : o = s.wprev := hslot o hS
          omega
    · intro c hc
      rcases List.mem_append.mp hc with hc | hc
      · exact hqr c (hrestq c hc)
      · cases hS : s.slot with
        | none => simp [hS] at hc
        | some o =>
          have hco : c = o := by simpa [hS] using hc
          have how : o = s.wprev := hslot o hS
          have hrw : s.rprev ≠ s.wprev := hsrw (by rw [hS]; rfl)
          omega
    · intro c hc
      have : b = c := by simpa using hc
      omega
    · intro _
      exact hbr.symm
    · cases hS : s.slot with
      | none =>
        have hc0 : s.queue.length + slotCount (none : Option Nat) = min s.mkCount 2 :=
          hS ▸ hcount
        simp only [hQ, List.length_cons, slotCount] at hc0
        simp only [Option.toList_none, List.append_nil, slotCount]
        omega
      | some o =>
        have hc0 : s.queue.length + slotCount (some o) = min s.mkCount 2 := hS ▸ hcount
        simp only [hQ, List.length_cons, slotCount] at hc0
        simp only [Option.toList_some, List.length_append, List.length_cons,
          List.length_nil, slotCount]
        omega
    · exact hmk
    · simp only [List.length_append, List.length_cons, List.length_nil]
      omega
    · have hne : s.rprev ≠ b := fun hE => hbr hE.symm
      rw [updf_ne _ _ hne, List.getElem?_append_left hlen]
      exact hrv
    · intro c hc
      have hcb : b = c := by simpa using hc
      subst hcb
      refine ⟨by simp, ?_, ?_⟩
      · simp only [updf_same]
        exact List.getElem?_concat_length _ _
      · simp only [updf_same]
        omega
    · intro p hp
      have hplt : p.1 < s.pubs.length := by
        have := hobsr p hp
        omega
      rw [List.getElem?_append_left hplt]
      exact hobs p hp
    · exact hobsr
    · exact hchain
  | nil =>
    rw [write_new_eq_nil hQ hw mk f]
    constructor <;> dsimp only
    · omega
    · omega
    · intro c hc
      cases hS : s.slot with
      | none => simp [hS] at hc
      | some o =>
        have hco : c = o := by simpa [hS] using hc
        have how : o = s.wprev := hslot o hS
        omega
    · cases hS : s.slot <;> simp
    · intro c hc
      cases hS : s.slot with
      | none => simp [hS] at hc
      | some o =>
        have hco : c = o := by simpa [hS] using hc
        have how : o = s.wprev := hslot o hS
        omega
    · intro c hc
      cases hS : s.slot with
      | none => simp [hS] at hc
      | some o =>
        have hco : c = o := by simpa [hS] using hc
        have how : o = s.wprev := hslot o hS
        have hrw : s.rprev ≠ s.wprev := hsrw (by rw [hS]; rfl)
        omega
    · intro c hc
      have : s.nextId = c := by simpa using hc
      omega
    · intro _
      omega
    · cases hS : s.slot with
      | none =>
        have hc0 : s.queue.length + slotCount (none : Option Nat) = min s.mkCount 2 :=
          hS ▸ hcount
        simp only [hQ, List.length_nil, slotCount] at hc0
        simp only [Option.toList_none, List.length_nil, slotCount]
        omega
      | some o =>
        have hc0 : s.queue.length + slotCount (some o) = min s.mkCount 2 := hS ▸ hcount
        simp only [hQ, List.length_nil, slotCount] at hc0
        simp only [Option.toList_some, List.length_cons, List.length_nil, slotCount]
        omega
    · cases hS : s.slot with
      | none =>
        have hc0 : s.queue.length + slotCount (none : Option Nat) = min s.mkCount 2 :=
          hS ▸ hcount
        simp only [hQ, List.length_nil, slotCount] at hc0
        omega
      | some o =>
        have hc0 : s.queue.length + slotCount (some o) = min s.mkCount 2 := hS ▸ hcount
        simp only [hQ, List.length_nil, slotCount] at hc0
        omega
    · simp only [List.length_append, List.length_cons, List.length_nil]
      omega
    · have hne : s.rprev ≠ s.nextId := Nat.ne_of_lt hr
      rw [updf_ne _ _ hne, List.getElem?_append_left hlen]
      exact hrv
    · intro c hc
      have hcb : s.nextId = c := by simpa using hc
      subst hcb
      refine ⟨by simp, ?_, ?_⟩
      · simp only [updf_same]
        exact List.getElem?_concat_length _ _
      · simp only [updf_same]
        omega
    · intro p hp
      have hplt : p.1 < s.pubs.length := by
        have := hobsr p hp
        omega
      rw [List.getElem?_append_left hplt]
      exact hobs p hp
    · exact hobsr
    · exact hchain

end TripleBuffer

namespace TripleBuffer

theorem readStep_eq_some {T : Type} {s : TBState T} {b : Nat} (hS : s.slot = some b) :
    readStep s =
      { s with
        rprev := b
        slot := none
        queue := s.queue ++ [s.rprev]
        rIdx := s.ver b
        obs := s.obs ++ [(s.ver b, s.vals b)] } := by
  simp [readStep, read_newest, ReadUpdate.get, hS]

theorem readStep_eq_none {T : Type} {s : TBState T} (hS : s.slot = none) :
    readStep s = { s with obs := s.obs ++ [(s.rIdx, s.vals s.rprev)] } := by
  simp [readStep, read_newest, ReadUpdate.get, hS]

theorem inv_read {T : Type} {s : TBState T} (h : Inv s) : Inv (readStep s) := by
  obtain ⟨hw, hr, hq, hnodup, hqw, hqr, hslot, hsrw, hcount, hmk, hlen, hrv, hsv,
    hobs, hobsr, hchain⟩ := h
  cases hS : s.slot with
  | none =>
    rw [readStep_eq_none hS]
    constructor <;> dsimp only
    · exact hw
    · exact hr
    · exact hq
    · exact hnodup
    · exact hqw
    · exact hqr
    · exact hslot
    · exact hsrw
    · exact hS ▸ hcount
    · exact hmk
    · exact hlen
    · exact hrv
    · exact hsv
    · intro p hp
      rcases List.mem_append.mp hp with hp | hp
      · exact hobs p hp
      · have hpe : p = (s.rIdx, s.vals s.rprev) := by simpa using hp
        rw [hpe]
        exact hrv
    · intro p hp
      rcases List.mem_append.mp hp with hp | hp
      · exact hobsr p hp
      · have hpe : p = (s.rIdx, s.vals s.rprev) := by simpa using hp
        rw [hpe]
    · rw [List.chain'_append]
      refine ⟨hchain, List.chain'_singleton _, ?_⟩
      intro x hx y hy
      have hxm : x ∈ s.obs := List.mem_of_getLast?_eq_some hx
      have hye : (s.rIdx, s.vals s.rprev) = y := by
        simpa using hy
      rw [← hye]
      exact hobsr x hxm
  | some b =>
    have hbw : b = s.wprev := hslot b hS
    have hrw : s.rprev ≠ s.wprev := hsrw (by rw [hS]; rfl)
    obtain ⟨hv1, hv2, hv3⟩ := hsv b hS
    rw [readStep_eq_some hS]
    constructor <;> dsimp only
    · exact hw
    · exact hbw ▸ hw
    · intro c hc
      rcases List.mem_append.mp hc with hc | hc
      · exact hq c hc
      · have : c = s.rprev := by simpa using hc
        omega
    · refine List.Nodup.append hnodup (List.nodup_singleton _) ?_
      intro c hc hc2
      have : c = s.rprev := by simpa using hc2
      exact hqr c hc this
    · intro c hc
      rcases List.mem_append.mp hc with hc | hc
      · exact hqw c hc
      · have : c = s.rprev := by simpa using hc
        omega
    · intro c hc
      rcases List.mem_append.mp hc with hc | hc
      · have := hqw c hc
        omega
      · have : c = s.rprev := by simpa using hc
        omega
    · intro c hc
      exact absurd hc (by simp)
    · intro hcon
      simp at hcon
    · have hc0 : s.queue.length + slotCount (some b) = min s.mkCount 2 := hS ▸ hcount
      simp only [slotCount, List.length_append, List.length_cons, List.length_nil] at hc0 ⊢
      omega
    · exact hmk
    · omega
    · exact hv2
    · intro c hc
      exact absurd hc (by simp)
    · intro p hp
      rcases List.mem_append.mp hp with hp | hp
      · exact hobs p hp
      · have hpe : p = (s.ver b, s.vals b) := by simpa using hp
        rw [hpe]
        exact hv2
    · intro p hp
      rcases List.mem_append.mp hp with hp | hp
      · have := hobsr p hp
        omega
      · have hpe : p = (s.ver b, s.vals b) := by simpa using hp
        rw [hpe]
    · rw [List.chain'_append]
      refine ⟨hchain, List.chain'_singleton _, ?_⟩
      intro x hx y hy
      have hxm : x ∈ s.obs := List.mem_of_getLast?_eq_some hx
      have hye : (s.ver b, s.vals b) = y := by simpa using hy
      rw [← hye]
      have := hobsr x hxm
      omega

theorem inv_applyOp {T : Type} (mk : T → T) (o : Op T) {s : TBState T} (h : Inv s) :
    Inv (applyOp mk o s) := by
  cases o with
  | write f => exact inv_write mk f h
  | read => exact inv_read h

theorem inv_applyOps {T : Type} (mk : T → T) (ops : List (Op T)) {s : TBState T}
    (h : Inv s) : Inv (applyOps mk ops s) := by
  induction ops generalizing s with
  | nil => exact h
  | cons o rest ih => exact ih (inv_applyOp mk o h)

theorem inv_reach {T : Type} (mk : T → T) (ops : List (Op T)) (v : T) :
    Inv (applyOps mk ops (initState v)) :=
  inv_applyOps mk ops (inv_init v)

end TripleBuffer

namespace TripleBuffer

/-- Value a read would observe in state `s`: the slot's buffer if present,
otherwise the reader's retained snapshot. -/
def newestVal {T : Type} (s : TBState T) : T :=
  match s.slot with
  | some b => s.vals b
  | none => s.vals s.rprev

theorem readValue_eq {T : Type} (s : TBState T) : readValue s = newestVal s := by
  cases hS : s.slot <;> simp [readValue, read_newest, ReadUpdate.get, newestVal, hS]

theorem readValue_eq_step {T : Type} (s : TBState T) :
    readValue s = (readStep s).vals (readStep s).rprev := by
  cases hS : s.slot <;> simp [readValue, readStep, read_newest, ReadUpdate.get, hS]

theorem write_rprev {T : Type} (mk : T → T) (f : T → T → T) (s : TBState T) :
    (write_new mk f s).rprev = s.rprev := by
  cases hQ : s.queue <;> simp [write_new, get_unused_buffer, hQ, writeFinish]

theorem write_slot_eq {T : Type} (mk : T → T) (f : T → T → T) {s : TBState T} :
    (write_new mk f s).slot = some (write_new mk f s).wprev := by
  cases hQ : s.queue <;> simp [write_new, get_unused_buffer, hQ, writeFinish, ReadUpdate.replace]

theorem write_rprev_val {T : Type} (mk : T → T) (f : T → T → T) {s : TBState T}
    (h : Inv s) : (write_new mk f s).vals s.rprev = s.vals s.rprev := by
  cases hQ : s.queue with
  | cons b rest =>
    have hbr : b ≠ s.rprev := h.hqr b (by rw [hQ]; exact List.mem_cons_self _ _)
    rw [write_new_eq_cons hQ mk f]
    exact updf_ne _ _ fun hE => hbr hE.symm
  | nil =>
    rw [write_new_eq_nil hQ h.hw mk f]
    exact updf_ne _ _ (Nat.ne_of_lt h.hr)

theorem write_lift_val {T : Type} (mk : T → T) (u : T → T) {s : TBState T}
    (hlt : s.wprev < s.nextId) :
    (write_new mk (liftUpd u) s).vals (write_new mk (liftUpd u) s).wprev
      = u (s.vals s.wprev) := by
  cases hQ : s.queue with
  | cons b rest =>
    rw [write_new_eq_cons hQ mk (liftUpd u)]
    simp [liftUpd]
  | nil =>
    rw [write_new_eq_nil hQ hlt mk (liftUpd u)]
    simp [liftUpd]

theorem runWrites_facts {T : Type} (mk : T → T) (us : List (T → T)) {s : TBState T}
    (h : Inv s) :
    Inv (runWrites mk (us.map liftUpd) s) ∧
    (runWrites mk (us.map liftUpd) s).vals (runWrites mk (us.map liftUpd) s).wprev
      = us.foldl (fun a u => u a) (s.vals s.wprev) := by
  induction us generalizing s with
  | nil => exact ⟨h, rfl⟩
  | cons u us ih =>
    have h1 : Inv (write_new mk (liftUpd u) s) := inv_write mk (liftUpd u) h
    have hv : (write_new mk (liftUpd u) s).vals (write_new mk (liftUpd u) s).wprev
        = u (s.vals s.wprev) := write_lift_val mk u h.hw
    have := ih h1
    refine ⟨this.1, ?_⟩
    rw [List.map_cons]
    show (runWrites mk (us.map liftUpd) (write_new mk (liftUpd u) s)).vals _
        = (u :: us).foldl (fun a u => u a) (s.vals s.wprev)
    rw [List.foldl_cons, ← hv]
    exact this.2

theorem runWrites_slot {T : Type} (mk : T → T) (fs : List (T → T → T)) {s : TBState T}
    (hne : fs ≠ []) :
    (runWrites mk fs s).slot = some (runWrites mk fs s).wprev := by
  induction fs generalizing s with
  | nil => exact absurd rfl hne
  | cons f fs ih =>
    cases fs with
    | nil =>
      show (write_new mk f s).slot = some (write_new mk f s).wprev
      exact write_slot_eq mk f
    | cons g gs =>
      exact ih (by simp)

theorem runWrites_frame {T : Type} (mk : T → T) (fs : List (T → T → T)) {s : TBState T}
    (h : Inv s) :
    (runWrites mk fs s).rprev = s.rprev ∧
    (runWrites mk fs s).vals s.rprev = s.vals s.rprev ∧
    Inv (runWrites mk fs s) := by
  induction fs generalizing s with
  | nil => exact ⟨rfl, rfl, h⟩
  | cons f fs ih =>
    have h1 : Inv (write_new mk f s) := inv_write mk f h
    have hrp : (write_new mk f s).rprev = s.rprev := write_rprev mk f s
    have hrv : (write_new mk f s).vals s.rprev = s.vals s.rprev := write_rprev_val mk f h
    have := ih h1
    refine ⟨?_, ?_, this.2.2⟩
    · show (runWrites mk fs (write_new mk f s)).rprev = s.rprev
      rw [this.1, hrp]
    · show (runWrites mk fs (write_new mk f s)).vals s.rprev = s.vals s.rprev
      rw [← hrp, this.2.1, hrp, hrv]

theorem refcount_queue_one {T : Type} {s : TBState T} (h : Inv s) {b : Nat}
    (hb : b ∈ s.queue) : refcount s b = 1 := by
  obtain ⟨hw, hr, hq, hnodup, hqw, hqr, hslot, hsrw, hcount, hmk, hlen, hrv, hsv,
    hobs, hobsr, hchain⟩ := h
  have h1 : s.wprev ≠ b := fun hE => (hqw b hb) hE.symm
  have h2 : s.rprev ≠ b := fun hE => (hqr b hb) hE.symm
  have h4 : s.queue.count b = 1 := List.count_eq_one_of_mem hnodup hb
  unfold refcount
  rw [if_neg h1, if_neg h2, h4]
  cases hS : s.slot with
  | none => rfl
  | some o =>
    have how : o = s.wprev := hslot o hS
    have hob : o ≠ b := by rw [how]; exact h1
    dsimp only
    rw [if_neg hob]

theorem applyReads_none {T : Type} (n : Nat) {s : TBState T} (hS : s.slot = none) :
    (applyReads n s).slot = none ∧ (applyReads n s).rprev = s.rprev ∧
    (applyReads n s).vals = s.vals ∧ (applyReads n s).wprev = s.wprev ∧
    (applyReads n s).queue = s.queue := by
  induction n generalizing s with
  | zero => exact ⟨hS, rfl, rfl, rfl, rfl⟩
  | succ n ih =>
    have hstep := readStep_eq_none hS
    have hS2 : (readStep s).slot = none := by rw [hstep]; exact hS
    have hres := ih hS2
    refine ⟨hres.1, ?_, ?_, ?_, ?_⟩
    · show (applyReads n (readStep s)).rprev = s.rprev
      rw [hres.2.1, hstep]
    · show (applyReads n (readStep s)).vals = s.vals
      rw [hres.2.2.1, hstep]
    · show (applyReads n (readStep s)).wprev = s.wprev
      rw [hres.2.2.2.1, hstep]
    · show (applyReads n (readStep s)).queue = s.queue
      rw [hres.2.2.2.2, hstep]

theorem readValue_writeFinish {T : Type} (f : T → T → T) (b : Nat) (s : TBState T) :
    readValue (writeFinish f b s) = f (s.vals s.wprev) (s.vals b) := by
  simp [readValue, read_newest, ReadUpdate.get, writeFinish, ReadUpdate.replace]

end TripleBuffer

namespace TripleBuffer

theorem newestVal_some {T : Type} {s : TBState T} {b : Nat} (h : s.slot = some b) :
    newestVal s = s.vals b := by
  simp [newestVal, h]

theorem newestVal_none {T : Type} {s : TBState T} (h : s.slot = none) :
    newestVal s = s.vals s.rprev := by
  simp [newestVal, h]

/-- State after one `+1` write from a fresh pair initialized with `0`;
used as the concrete input of several witnesses. -/
def sampleWrite : TBState Nat :=
  write_new id (liftUpd (fun n => n + 1)) (initState 0)

/-- C1: writes before any read compose sequentially — a single read after a
sequence of `write_new` calls with update functions `us` returns the fold of
`us` over the initial value; in particular one `+1` write from `0` reads `1`. -/
theorem c1_sequential_composition {T : Type} (mk : T → T) (v : T) (us : List (T → T)) :
    readValue (runWrites mk (us.map liftUpd) (initState v)) = us.foldl (fun a u => u a) v ∧
    readValue (write_new id (liftUpd (fun n => n + 1)) (initState (0 : Nat))) = 1 := by
  constructor
  · obtain ⟨hI, hval⟩ := runWrites_facts mk us (inv_init v)
    cases us with
    | nil => simp [runWrites, readValue, read_newest, ReadUpdate.get, initState]
    | cons u us2 =>
      have hslot := runWrites_slot mk ((u :: us2).map liftUpd) (s := initState v)
        (by simp)
      rw [readValue_eq, newestVal_some hslot]
      exact hval
  · decide

/-- C2: a snapshot obtained by a read keeps its identity and value across any
number of subsequent writes; scenario B: after a read of `0` and five `+1`
writes the held snapshot still reads `0` while a fresh read returns `5`. -/
theorem c2_snapshot_frame {T : Type} (mk : T → T) (v : T) (ops : List (Op T))
    (fs : List (T → T → T)) :
    ((runWrites mk fs (readStep (applyOps mk ops (initState v)))).rprev
        = (readStep (applyOps mk ops (initState v))).rprev ∧
      (runWrites mk fs (readStep (applyOps mk ops (initState v)))).vals
          (readStep (applyOps mk ops (initState v))).rprev
        = readValue (applyOps mk ops (initState v))) ∧
    ((runWrites id (List.replicate 5 (liftUpd (fun n => n + 1)))
          (readStep (initState (0 : Nat)))).vals (readStep (initState (0 : Nat))).rprev
        = 0 ∧
      readValue (runWrites id (List.replicate 5 (liftUpd (fun n => n + 1)))
          (readStep (initState (0 : Nat)))) = 5) := by
  constructor
  · have hI := inv_read (inv_reach mk ops v)
    have hf := runWrites_frame mk fs hI
    refine ⟨hf.1, ?_⟩
    rw [hf.2.1, ← readValue_eq_step]
  · exact ⟨by decide, by decide⟩

/-- C3: every handle resident in the pool (the unused-buffer channel) has
reference count exactly 1 — no Reader, Writer or slot holds it, so pooling
never hands the Writer a buffer another party is viewing. -/
theorem c3_pool_handles_exclusive {T : Type} (mk : T → T) (v : T) (ops : List (Op T)) :
    ∀ b ∈ (applyOps mk ops (initState v)).queue,
      refcount (applyOps mk ops (initState v)) b = 1 :=
  fun _ hb => refcount_queue_one (inv_reach mk ops v) hb

theorem c3_pool_handles_exclusive_witness :
    1 ∈ (applyOps id [Op.write (liftUpd (fun n => n + 1)),
          Op.write (liftUpd (fun n => n + 1))] (initState (0 : Nat))).queue ∧
    refcount (applyOps id [Op.write (liftUpd (fun n => n + 1)),
          Op.write (liftUpd (fun n => n + 1))] (initState (0 : Nat))) 1 = 1 :=
  ⟨by decide,
    c3_pool_handles_exclusive id 0
      [Op.write (liftUpd (fun n => n + 1)), Op.write (liftUpd (fun n => n + 1))] 1
      (by decide)⟩

/-- C4: across every interleaving of writes and reads, the construction
callback `make_buf` is invoked at most twice. -/
theorem c4_construction_bound {T : Type} (mk : T → T) (v : T) (ops : List (Op T)) :
    (applyOps mk ops (initState v)).mkCount ≤ 2 :=
  (inv_reach mk ops v).hmk

/-- C5: reads performed inside a single write's update callback (between
buffer acquisition and publication) all return the pre-write value `0`;
a read after the write completes returns `1`. -/
theorem c5_in_progress_write_invisible (mk : Nat → Nat) (n k : Nat) :
    readValue (applyReads k (get_unused_buffer mk (initState 0)).2) = 0 ∧
    readValue (writeFinish (liftUpd (fun old => old + 1))
        (get_unused_buffer mk (initState 0)).1
        (applyReads n (get_unused_buffer mk (initState 0)).2)) = 1 := by
  have hp : get_unused_buffer mk (initState (0 : Nat)) =
      (1, { initState 0 with
              vals := updf (fun _ => (0 : Nat)) 1 (mk 0)
              nextId := 2
              mkCount := 1 }) := by
    simp [get_unused_buffer, initState]
  have hp2slot : (get_unused_buffer mk (initState (0 : Nat))).2.slot = none := by
    simp [get_unused_buffer, initState]
  constructor
  · obtain ⟨hs, hr, hv, hwp, hq⟩ := applyReads_none k hp2slot
    rw [readValue_eq, newestVal_none hs, hr, hv, hp]
    simp [initState, updf]
  · obtain ⟨hs, hr, hv, hwp, hq⟩ := applyReads_none n hp2slot
    rw [readValue_writeFinish, hv, hwp, hp]
    simp [initState, liftUpd, updf]

/-- C6: the sequence of observations a Reader makes is ordered: the publish
indices are monotone non-decreasing, and every observed value is the entry of
the publish history (initial value followed by completed writes) at its index. -/
theorem c6_observation_order {T : Type} (mk : T → T) (v : T) (ops : List (Op T)) :
    List.Chain' (fun p q => p.1 ≤ q.1) (applyOps mk ops (initState v)).obs ∧
    ∀ p ∈ (applyOps mk ops (initState v)).obs,
      (applyOps mk ops (initState v)).pubs[p.1]? = some p.2 :=
  ⟨(inv_reach mk ops v).hchain, (inv_reach mk ops v).hobs⟩

theorem c6_observation_order_witness :
    List.Chain' (fun p q => p.1 ≤ q.1)
      (applyOps id [Op.read, Op.write (liftUpd (fun n => n + 1)), Op.read]
        (initState (0 : Nat))).obs ∧
    (applyOps id [Op.read, Op.write (liftUpd (fun n => n + 1)), Op.read]
        (initState (0 : Nat))).pubs[(0 : Nat)]? = some 0 :=
  ⟨(c6_observation_order id 0 [Op.read, Op.write (liftUpd (fun n => n + 1)), Op.read]).1,
    (c6_observation_order id 0 [Op.read, Op.write (liftUpd (fun n => n + 1)), Op.read]).2
      (0, 0) (by decide)⟩

/-- C7 as stated is false: the slot is NOT initialized with the starting value —
`ReadUpdate::new` starts it at `None`, and the first write's publish reclaims
nothing (the channel stays empty). -/
theorem c7_counterexample :
    (initState (0 : Nat)).slot = none ∧
    (write_new id (liftUpd (fun n => n + 1)) (initState (0 : Nat))).queue = [] := by
  constructor <;> decide

/-- C7 amended: the slot starts empty at construction; the publish performed by
`write_new` swaps the new handle in and returns whatever was previously
resident — `some` handle if a write had published and no read consumed it,
`none` otherwise — and only a `some` result is sent back to the pool. -/
theorem c7_slot_empty_at_start {T : Type} (v : T) :
    (initState v).slot = none ∧
    ∀ (slot : Option Nat) (b : Nat), ReadUpdate.replace slot b = (slot, some b) :=
  ⟨rfl, fun _ _ => rfl⟩

/-- C8 as stated is false: `ReadUpdate::get` is `take()` — after a read
consumes a published handle the slot is empty, not left in place. -/
theorem c8_counterexample :
    (write_new id (liftUpd (fun n => n + 1)) (initState (0 : Nat))).slot = some 1 ∧
    (readStep (write_new id (liftUpd (fun n => n + 1)) (initState (0 : Nat)))).slot
      = none := by
  constructor <;> decide

/-- C8 amended: `take` removes the resident handle from the slot and the
reader adopts it as its own `prev_buf`, so re-polling without a new write
still cheaply returns the same snapshot (now served from `prev_buf`). -/
theorem c8_take_then_reread_same {T : Type} (s : TBState T) :
    readValue (readStep s) = readValue s ∧
    ∀ b, s.slot = some b → (readStep s).slot = none ∧ (readStep s).rprev = b := by
  constructor
  · cases hS : s.slot with
    | some b =>
      have h1 := readStep_eq_some hS
      have h2 : (readStep s).slot = none := by simp [h1]
      rw [readValue_eq, readValue_eq, newestVal_some hS, newestVal_none h2, h1]
    | none =>
      have h1 := readStep_eq_none hS
      have h2 : (readStep s).slot = none := by rw [h1]; exact hS
      rw [readValue_eq, readValue_eq, newestVal_none hS, newestVal_none h2, h1]
  · intro b hS
    rw [readStep_eq_some hS]
    exact ⟨rfl, rfl⟩

theorem c8_take_then_reread_same_witness :
    readValue (readStep sampleWrite) = readValue sampleWrite ∧
    (readStep sampleWrite).slot = none ∧ (readStep sampleWrite).rprev = 1 :=
  ⟨(c8_take_then_reread_same sampleWrite).1,
    ((c8_take_then_reread_same sampleWrite).2 1 (by decide)).1,
    ((c8_take_then_reread_same sampleWrite).2 1 (by decide)).2⟩

/-- C9: whenever the channel is nonempty, `get_unused_buffer` pops its front
buffer, and that buffer's strong reference count is exactly 1 (its only
holder is the channel entry being transferred; the crate creates no weak
handles), so `Arc::get_mut(..).unwrap()` in `write_new` cannot panic. -/
theorem c9_popped_buffer_exclusive {T : Type} (mk : T → T) (v : T) (ops : List (Op T))
    (b : Nat) (rest : List Nat) :
    (applyOps mk ops (initState v)).queue = b :: rest →
      (get_unused_buffer mk (applyOps mk ops (initState v))).1 = b ∧
      refcount (applyOps mk ops (initState v)) b = 1 := by
  intro hQ
  constructor
  · simp [get_unused_buffer, hQ]
  · exact refcount_queue_one (inv_reach mk ops v)
      (by rw [hQ]; exact List.mem_cons_self _ _)

theorem c9_popped_buffer_exclusive_witness :
    (applyOps id [Op.write (liftUpd (fun n => n + 1)),
        Op.write (liftUpd (fun n => n + 1))] (initState (0 : Nat))).queue = [1] ∧
    (get_unused_buffer id (applyOps id [Op.write (liftUpd (fun n => n + 1)),
        Op.write (liftUpd (fun n => n + 1))] (initState (0 : Nat)))).1 = 1 ∧
    refcount (applyOps id [Op.write (liftUpd (fun n => n + 1)),
        Op.write (liftUpd (fun n => n + 1))] (initState (0 : Nat))) 1 = 1 :=
  ⟨by decide,
    (c9_popped_buffer_exclusive id 0
      [Op.write (liftUpd (fun n => n + 1)), Op.write (liftUpd (fun n => n + 1))]
      1 [] (by decide)).1,
    (c9_popped_buffer_exclusive id 0
      [Op.write (liftUpd (fun n => n + 1)), Op.write (liftUpd (fun n => n + 1))]
      1 [] (by decide)).2⟩

/-- C10: while the Writer is alive `read_newest` always succeeds; once the
Writer has been dropped, the next read panics exactly when the slot still
holds an unconsumed handle (the reclamation send's receiver died with the
Writer and the result is unwrapped); with an empty slot no send happens and
the read still succeeds. -/
theorem c10_read_panics_after_writer_drop {T : Type} (s : TBState T) :
    (read_newest_checked true s).isSome = true ∧
    (∀ b, s.slot = some b → read_newest_checked false s = none) ∧
    (s.slot = none → (read_newest_checked false s).isSome = true) := by
  refine ⟨?_, ?_, ?_⟩
  · cases hS : s.slot <;> simp [read_newest_checked, ReadUpdate.get, hS]
  · intro b hS
    simp [read_newest_checked, ReadUpdate.get, hS]
  · intro hS
    simp [read_newest_checked, ReadUpdate.get, hS]

theorem c10_read_panics_after_writer_drop_witness :
    (read_newest_checked true sampleWrite).isSome = true ∧
    read_newest_checked false sampleWrite = none ∧
    (read_newest_checked false (initState (0 : Nat))).isSome = true :=
  ⟨(c10_read_panics_after_writer_drop sampleWrite).1,
    (c10_read_panics_after_writer_drop sampleWrite).2.1 1 (by decide),
    (c10_read_panics_after_writer_drop (initState (0 : Nat))).2.2 (by decide)⟩

end TripleBuffer
